import Mathlib

/-!
Verification of the pgym-prenotazioni booking application (src/app.py).

Times of day are modelled as minutes. A Python `datetime` restricted to the
arithmetic the code performs (adding a `timedelta` of minutes, extracting
`.time()`) is modelled as an integer number of minutes from the midnight that
starts the processed day; `.time()` is extraction modulo 1440 (minutes per
day), which is what Python's wrap-around at day boundaries produces.
Calendar dates are modelled as a day count from a fixed Monday, so a day
`d` has weekday `d % 7` with `0` = Monday, matching Python's `date.weekday`.  Database rows are lists of
structures; autoincrement ids are threaded explicitly.  The `while` loop of
`add_block` (src/app.py lines 112-119) is not structurally recursive for an
arbitrary duration, so it is embedded with an explicit fuel parameter:
`none` means the fuel was exhausted, i.e. the loop had not terminated after
that many iterations.
-/

/-- Minutes in a day, the modulus of Python `datetime.time()` extraction. -/
def minutesPerDay : Int := 1440

/-- The loop body of `add_block` in `slot_ranges_for_personal`
(src/app.py lines 112-119): starting from `cur` (minutes), repeatedly cut a
slot of `dur` minutes while the current time-of-day is before `endMin`,
discarding a slot whose end time-of-day passes `endMin`.  `fuel` bounds the
number of iterations; `none` means the loop was still running. -/
def addBlockAux (dur endMin : Int) : Nat → Int → List (Int × Int) → Option (List (Int × Int))
  | 0, _, _ => none
  | fuel + 1, cur, acc =>
    if cur % minutesPerDay < endMin then
      let endDt := cur + dur
      if endDt % minutesPerDay > endMin then some acc
      else addBlockAux dur endMin fuel endDt (acc ++ [(cur % minutesPerDay, endDt % minutesPerDay)])
    else some acc

/-- `add_block(start_h, end_h)` (src/app.py lines 112-119) with duration
`dur` minutes: the slots produced for one open block of the day. -/
def add_block (dur : Int) (startH endH : Nat) (fuel : Nat) : Option (List (Int × Int)) :=
  addBlockAux dur ((endH : Int) * 60) fuel ((startH : Int) * 60) []

/-- `slot_ranges_for_personal(day)` (src/app.py lines 109-126), parameterised
by the weekday `wd` of the day (`0` = Monday, as in Python) and the settings
duration `dur`.  Saturday runs two blocks appending into one list. -/
def slot_ranges_for_personal (dur : Int) (wd : Nat) (fuel : Nat) : Option (List (Int × Int)) :=
  if wd == 0 || wd == 2 || wd == 4 then add_block dur 8 20 fuel
  else if wd == 1 || wd == 3 then add_block dur 6 20 fuel
  else if wd == 5 then
    match add_block dur 9 11 fuel, add_block dur 16 19 fuel with
    | some a, some b => some (a ++ b)
    | _, _ => none
  else some []

/-- With duration `0` the loop makes no progress: `cur + 0 = cur`, the guard
stays true and the discard test stays false, so no amount of fuel suffices. -/
theorem addBlockAux_zero_dur_none (endMin : Int) :
    ∀ (fuel : Nat) (cur : Int) (acc : List (Int × Int)),
      cur % minutesPerDay < endMin → addBlockAux 0 endMin fuel cur acc = none := by
  intro fuel
  induction fuel with
  | zero => intro cur acc _; rfl
  | succ n ih =>
    intro cur acc h
    have hnot : ¬ ((cur + 0) % minutesPerDay > endMin) := by
      rw [Int.add_zero]; exact not_lt.mpr (le_of_lt h)
    simp only [addBlockAux, if_pos h, if_neg hnot]
    rw [Int.add_zero]
    exact ih cur _ h

/-- The slots produced on a Monday by duration `-60`: eight inverted
garbage slots running backwards from 08:00 and wrapping past midnight. -/
def negDurMondaySlots : List (Int × Int) :=
  [(480, 420), (420, 360), (360, 300), (300, 240),
   (240, 180), (180, 120), (120, 60), (60, 0)]

/-- C4: the code does not reject a non-positive `personal_duration_min`.
With duration 0 the per-day expansion for a Monday never terminates (it
returns `none` for every fuel bound), and with duration -60 the
configuration is accepted and produces garbage backwards slots instead of
failing fast: the claimed fail-fast `InvalidConfiguration` behaviour is
absent from the code. -/
theorem zero_duration_diverges :
    (∀ fuel : Nat, slot_ranges_for_personal 0 0 fuel = none) ∧
    slot_ranges_for_personal (-60) 0 100 = some negDurMondaySlots := by
  constructor
  · intro fuel
    have h : slot_ranges_for_personal 0 0 fuel = addBlockAux 0 1200 fuel 480 [] := rfl
    rw [h]
    exact addBlockAux_zero_dur_none 1200 fuel 480 [] (by decide)
  · decide

/-- The 12 hourly slots from 08:00 to 20:00 (minutes of day). -/
def hourlySlots0820 : List (Int × Int) :=
  [(480, 540), (540, 600), (600, 660), (660, 720), (720, 780), (780, 840),
   (840, 900), (900, 960), (960, 1020), (1020, 1080), (1080, 1140), (1140, 1200)]

/-- The 5 Saturday slots 09:00-10:00, 10:00-11:00, 16:00-17:00, 17:00-18:00,
18:00-19:00 (minutes of day). -/
def satSlots : List (Int × Int) :=
  [(540, 600), (600, 660), (960, 1020), (1020, 1080), (1080, 1140)]

/-- C5: with duration 60 the per-day expansion yields exactly the 12
contiguous hourly slots 08:00-20:00 on Monday, Wednesday and Friday, exactly
the 5 listed slots on Saturday, and zero slots on Sunday for every duration. -/
theorem weekly_template_slots :
    (∀ wd : Nat, wd = 0 ∨ wd = 2 ∨ wd = 4 →
        slot_ranges_for_personal 60 wd 20 = some hourlySlots0820) ∧
    slot_ranges_for_personal 60 5 20 = some satSlots ∧
    (∀ (dur : Int) (fuel : Nat), slot_ranges_for_personal dur 6 fuel = some []) := by
  refine ⟨?_, by decide, ?_⟩
  · rintro wd (rfl | rfl | rfl) <;> decide
  · intro dur fuel; rfl

/-- Witness for `weekly_template_slots` at the concrete weekday Monday. -/
theorem weekly_template_slots_witness :
    slot_ranges_for_personal 60 0 20 = some hourlySlots0820 :=
  weekly_template_slots.1 0 (Or.inl rfl)

/-!
Data model (src/app.py lines 19-88).  Primary-key `id` columns and
`created_at` timestamps that no modelled operation ever reads are omitted;
the columns the operations consult are kept with their nullability
(`Option`).  Rows live in lists; the autoincrement counters that matter to
the modelled operations are threaded through the store explicitly.
-/

/-- A `Member` row (src/app.py lines 30-34). -/
structure Member where
  id : Nat
  name : String
  email : Option String
  phone : Option String
  deriving Repr, DecidableEq

/-- A `ClassSession` row (src/app.py lines 36-45); times in minutes of day. -/
structure ClassSession where
  id : Nat
  title : String
  coach : Option String
  date : Nat
  start_time : Int
  end_time : Int
  capacity : Nat
  location : Option String
  deriving Repr, DecidableEq

/-- A `Booking` row (src/app.py lines 47-53); the `id` and `created_at`
columns are never consulted by the verified operations and are omitted.
The storage layer enforces uniqueness of `(member_id, class_id)`. -/
structure Booking where
  member_id : Nat
  class_id : Nat
  deriving Repr, DecidableEq

/-- A `Package` row (src/app.py lines 62-69); `id` omitted (never read). -/
structure Package where
  member_id : Nat
  total : Int
  remaining : Int
  activated_at : Int
  expires_at : Option Int
  deriving Repr, DecidableEq

/-- The `AppSettings` singleton row (src/app.py lines 55-60). -/
structure Settings where
  weeks_ahead : Nat
  personal_capacity : Nat
  personal_duration_min : Int
  personal_coach : String
  deriving Repr, DecidableEq

/-- The relational store the modelled operations touch. -/
structure Store where
  members : List Member
  sessions : List ClassSession
  bookings : List Booking
  packages : List Package
  nextMemberId : Nat
  nextSessionId : Nat
  deriving Repr, DecidableEq

/-- The deployment's fixed default location (src/app.py line 13). -/
def DEFAULT_LOCATION : String := "Pgym 2.0"

/-- `member_remaining_entries`'s `order_by(activated_at.desc()).first()`
(src/app.py line 149): the package with the greatest `activated_at`
(earlier row wins a tie, matching a stable ordering of equal keys). -/
def latestPkg : List Package → Option Package
  | [] => none
  | p :: ps =>
    match latestPkg ps with
    | none => some p
    | some q => if q.activated_at > p.activated_at then some q else some p

/-- `member_remaining_entries(member_id)` (src/app.py lines 148-150):
the `remaining` of the member's most recently activated package, `0` if the
member has none.  Note that `expires_at` is never consulted. -/
def member_remaining_entries (pkgs : List Package) (mid : Nat) : Int :=
  match latestPkg (pkgs.filter (fun p => p.member_id == mid)) with
  | none => 0
  | some p => p.remaining

/-- Outcomes of a booking attempt.  `success`, `capacityFull` ("Capienza
raggiunta"), `uniqueViolation` (the storage `IntegrityError` propagating out
of `db.session.commit()`) and `notFound` (404) are the outcomes the code can
produce; `alreadyBooked` and `insufficientCredit` are the §7 spec conditions,
listed so that claims about them can be stated. -/
inductive BookOutcome where
  | success
  | capacityFull
  | uniqueViolation
  | notFound
  | alreadyBooked
  | insufficientCredit
  deriving Repr, DecidableEq

/-- `ClassSession.query.get(class_id)`: the session row with the given id. -/
def findSession (l : List ClassSession) (cid : Nat) : Option ClassSession :=
  l.find? (fun cs => cs.id == cid)

/-- `len(cs.bookings)`: the number of booking rows for session `cid`. -/
def bookingCount (st : Store) (cid : Nat) : Nat :=
  (st.bookings.filter (fun b => b.class_id == cid)).length

/-- The lookup half of member resolution inside `book` (src/app.py lines
328-330): by email when an email was posted, else by name when a name was
posted. -/
def lookupMember (st : Store) (name email : String) : Option Member :=
  match (if email ≠ "" then st.members.find? (fun m => m.email == some email) else none) with
  | some m => some m
  | none => if name ≠ "" then st.members.find? (fun m => m.name == name) else none

/-- Member resolution inside `book` (src/app.py lines 328-333): look up,
else create (and flush) a fresh member.  Returns the member together with
the store as the pending transaction sees it. -/
def resolveMember (st : Store) (name email phone : String) : Member × Store :=
  match lookupMember st name email with
  | some m => (m, st)
  | none =>
    let m : Member :=
      { id := st.nextMemberId
        name := if name ≠ "" then name else "Cliente"
        email := if email ≠ "" then some email else none
        phone := if phone ≠ "" then some phone else none }
    (m, { st with members := st.members ++ [m], nextMemberId := st.nextMemberId + 1 })

/-- The POST branch of `book(class_id)` (src/app.py lines 320-340).
No credit lookup or decrement appears anywhere in the route.  On
`capacityFull` the code calls `db.session.rollback()`, discarding any
member flushed during resolution; on the uniqueness `IntegrityError` the
failed `commit` leaves nothing persisted; both return the original store. -/
def book (st : Store) (cid : Nat) (name email phone : String) : BookOutcome × Store :=
  match findSession st.sessions cid with
  | none => (.notFound, st)
  | some cs =>
    let r := resolveMember st name email phone
    if bookingCount r.2 cs.id ≥ cs.capacity then
      (.capacityFull, st)
    else if r.2.bookings.any (fun b => b.member_id == r.1.id && b.class_id == cs.id) then
      (.uniqueViolation, st)
    else
      (.success, { r.2 with bookings := r.2.bookings ++ [{ member_id := r.1.id, class_id := cs.id }] })

/-- `class_detail`'s `spots_left = cs.capacity - len(cs.bookings)`
(src/app.py lines 314-318); Python integer subtraction, no clamping. -/
def class_detail_spots_left (st : Store) (cid : Nat) : Option Int :=
  (findSession st.sessions cid).map
    (fun cs => (cs.capacity : Int) - (bookingCount st cs.id : Int))

/-- Resolving the member only touches the members table and its counter. -/
theorem resolveMember_frame (st : Store) (n e p : String) :
    (resolveMember st n e p).2.bookings = st.bookings ∧
    (resolveMember st n e p).2.sessions = st.sessions ∧
    (resolveMember st n e p).2.packages = st.packages := by
  cases h : lookupMember st n e <;> simp [resolveMember, h]

/-- A session found by id has that id. -/
theorem findSession_id {l : List ClassSession} {cid : Nat} {cs : ClassSession}
    (h : findSession l cid = some cs) : cs.id = cid := by
  have := List.find?_some h
  simpa using this

/-- The booking count is unaffected by member resolution. -/
theorem bookingCount_resolve (st : Store) (n e p : String) (cid : Nat) :
    bookingCount (resolveMember st n e p).2 cid = bookingCount st cid := by
  unfold bookingCount
  rw [(resolveMember_frame st n e p).1]

/-- Appending one booking row for `cid` raises the count for `cid` by one. -/
theorem bookingCount_after_insert (st2 : Store) (mid cid : Nat) :
    bookingCount
      { st2 with bookings := st2.bookings ++ [{ member_id := mid, class_id := cid }] } cid
      = bookingCount st2 cid + 1 := by
  simp [bookingCount, List.filter_append]

/-- C3: capacity is enforced: when the session's booking count has reached
its capacity, `book` fails with the capacity condition and returns the store
unchanged (the rollback discards any flushed member); and every `book` call
preserves the invariant booking-count ≤ capacity. -/
theorem capacity_enforced :
    (∀ (st : Store) (cid : Nat) (n e p : String) (cs : ClassSession),
        findSession st.sessions cid = some cs →
        bookingCount st cid ≥ cs.capacity →
        book st cid n e p = (.capacityFull, st)) ∧
    (∀ (st : Store) (cid : Nat) (n e p : String) (cs : ClassSession),
        findSession st.sessions cid = some cs →
        bookingCount st cid ≤ cs.capacity →
        bookingCount (book st cid n e p).2 cid ≤ cs.capacity) := by
  constructor
  · intro st cid n e p cs hfind hcap
    have hid : cs.id = cid := findSession_id hfind
    have hge : bookingCount (resolveMember st n e p).2 cs.id ≥ cs.capacity := by
      rw [bookingCount_resolve, hid]; exact hcap
    simp only [book, hfind]
    rw [if_pos hge]
  · intro st cid n e p cs hfind hle
    have hid : cs.id = cid := findSession_id hfind
    simp only [book, hfind]
    split
    · exact hle
    · split
      · exact hle
      · rename_i hlt _
        rw [bookingCount_resolve, hid] at hlt
        rw [hid, bookingCount_after_insert, bookingCount_resolve]
        omega

/-- A store with one session of capacity 1 that is already fully booked. -/
def fullSessionStore : Store :=
  { members := [⟨1, "Anna", some "anna@x.it", none⟩, ⟨2, "Beppe", some "b@x.it", none⟩]
    sessions := [⟨20, "Personal", none, 0, 480, 540, 1, some DEFAULT_LOCATION⟩]
    bookings := [⟨1, 20⟩]
    packages := []
    nextMemberId := 3
    nextSessionId := 21 }

/-- Witness for `capacity_enforced` on a concrete full session. -/
theorem capacity_enforced_witness :
    book fullSessionStore 20 "Beppe" "b@x.it" "" = (.capacityFull, fullSessionStore) :=
  capacity_enforced.1 fullSessionStore 20 "Beppe" "b@x.it" ""
    ⟨20, "Personal", none, 0, 480, 540, 1, some DEFAULT_LOCATION⟩ (by decide) (by decide)

/-- A store whose member 1 has a package with `remaining = 0`. -/
def noCreditStore : Store :=
  { members := [⟨1, "Mario", some "mario@x.it", none⟩]
    sessions := [⟨10, "Personal", none, 0, 480, 540, 2, some DEFAULT_LOCATION⟩]
    bookings := []
    packages := [⟨1, 10, 0, 100, some 200⟩]
    nextMemberId := 2
    nextSessionId := 11 }

/-- C1 counterexample: member 1's credit balance is 0, yet the booking
attempt succeeds, inserts the booking row and leaves every package row
untouched -- `book` (src/app.py lines 320-340) neither checks nor
decrements credit, against the claimed `InsufficientCredit` failure. -/
theorem book_ignores_credit_cex :
    member_remaining_entries noCreditStore.packages 1 ≤ 0 ∧
    (book noCreditStore 10 "Mario" "mario@x.it" "").1 = .success ∧
    (book noCreditStore 10 "Mario" "mario@x.it" "").1 ≠ .insufficientCredit ∧
    (book noCreditStore 10 "Mario" "mario@x.it" "").2.bookings = [⟨1, 10⟩] ∧
    (book noCreditStore 10 "Mario" "mario@x.it" "").2.packages = noCreditStore.packages := by
  decide

/-- C1 (amended): `book` performs no credit check and no credit decrement:
every call leaves the packages table exactly unchanged, and whenever the
session exists, its capacity is not reached and the resolved member holds no
booking for it, the attempt succeeds and appends the booking row --
regardless of the member's credit balance, including a balance of zero. -/
theorem book_no_credit_check :
    (∀ (st : Store) (cid : Nat) (n e p : String),
        (book st cid n e p).2.packages = st.packages) ∧
    (∀ (st : Store) (cid : Nat) (n e p : String) (cs : ClassSession),
        findSession st.sessions cid = some cs →
        bookingCount st cid < cs.capacity →
        (st.bookings.any
          (fun b => b.member_id == (resolveMember st n e p).1.id && b.class_id == cs.id)) = false →
        (book st cid n e p).1 = .success ∧
        (book st cid n e p).2.bookings =
          st.bookings ++ [{ member_id := (resolveMember st n e p).1.id, class_id := cs.id }]) := by
  constructor
  · intro st cid n e p
    cases hf : findSession st.sessions cid with
    | none => simp [book, hf]
    | some cs =>
      simp only [book, hf]
      split
      · rfl
      · split
        · rfl
        · exact (resolveMember_frame st n e p).2.2
  · intro st cid n e p cs hfind hlt hdup
    have hid : cs.id = cid := findSession_id hfind
    have hbk : (resolveMember st n e p).2.bookings = st.bookings :=
      (resolveMember_frame st n e p).1
    have hnotge : ¬ (bookingCount (resolveMember st n e p).2 cs.id ≥ cs.capacity) := by
      rw [bookingCount_resolve, hid]; omega
    have hdup2 : ((resolveMember st n e p).2.bookings.any
        (fun b => b.member_id == (resolveMember st n e p).1.id && b.class_id == cs.id)) = false := by
      rw [hbk]; exact hdup
    simp only [book, hfind]
    rw [if_neg hnotge, hdup2]
    simp [hbk]

/-- Witness for `book_no_credit_check` at the zero-balance store. -/
theorem book_no_credit_check_witness :
    (book noCreditStore 10 "Mario" "mario@x.it" "").1 = .success ∧
    (book noCreditStore 10 "Mario" "mario@x.it" "").2.bookings =
      noCreditStore.bookings ++
        [{ member_id := (resolveMember noCreditStore "Mario" "mario@x.it" "").1.id,
           class_id := 10 }] :=
  book_no_credit_check.2 noCreditStore 10 "Mario" "mario@x.it" ""
    ⟨10, "Personal", none, 0, 480, 540, 2, some DEFAULT_LOCATION⟩
    (by decide) (by decide) (by decide)

/-- A store whose member 1 already holds a booking for session 10, which
still has spare capacity. -/
def dupBookingStore : Store :=
  { members := [⟨1, "Mario", some "mario@x.it", none⟩]
    sessions := [⟨10, "Personal", none, 0, 480, 540, 2, some DEFAULT_LOCATION⟩]
    bookings := [⟨1, 10⟩]
    packages := []
    nextMemberId := 2
    nextSessionId := 11 }

/-- C2 counterexample: the second booking attempt by the already-booked
member hits the storage uniqueness violation, which `book` does not catch:
the outcome is the propagated `IntegrityError`, not the claimed
`AlreadyBooked` condition (the state is indeed left unchanged). -/
theorem duplicate_booking_cex :
    (book dupBookingStore 10 "Mario" "mario@x.it" "").1 = .uniqueViolation ∧
    (book dupBookingStore 10 "Mario" "mario@x.it" "").1 ≠ .alreadyBooked ∧
    (book dupBookingStore 10 "Mario" "mario@x.it" "").2 = dupBookingStore := by
  decide

/-- C2 (amended): when the resolved member already holds a booking for the
session and capacity is not yet reached, the insert hits the storage-level
`(member_id, class_id)` uniqueness violation, which propagates as a generic
storage failure and leaves all state unchanged (so credit is trivially not
decremented twice); no call of `book` ever produces an `AlreadyBooked`
condition -- the translation the claim describes does not exist in the code. -/
theorem duplicate_booking_unique_violation :
    (∀ (st : Store) (cid : Nat) (n e p : String) (cs : ClassSession),
        findSession st.sessions cid = some cs →
        bookingCount st cid < cs.capacity →
        (st.bookings.any
          (fun b => b.member_id == (resolveMember st n e p).1.id && b.class_id == cs.id)) = true →
        book st cid n e p = (.uniqueViolation, st)) ∧
    (∀ (st : Store) (cid : Nat) (n e p : String),
        (book st cid n e p).1 ≠ .alreadyBooked) := by
  constructor
  · intro st cid n e p cs hfind hlt hdup
    have hid : cs.id = cid := findSession_id hfind
    have hnotge : ¬ (bookingCount (resolveMember st n e p).2 cs.id ≥ cs.capacity) := by
      rw [bookingCount_resolve, hid]; omega
    have hdup2 : ((resolveMember st n e p).2.bookings.any
        (fun b => b.member_id == (resolveMember st n e p).1.id && b.class_id == cs.id)) = true := by
      rw [(resolveMember_frame st n e p).1]; exact hdup
    simp only [book, hfind]
    rw [if_neg hnotge, hdup2]
    simp
  · intro st cid n e p
    cases hf : findSession st.sessions cid with
    | none => simp [book, hf]
    | some cs =>
      simp only [book, hf]
      split
      · simp
      · split
        · simp
        · simp

/-- Witness for `duplicate_booking_unique_violation` at the concrete store. -/
theorem duplicate_booking_unique_violation_witness :
    book dupBookingStore 10 "Mario" "mario@x.it" "" = (.uniqueViolation, dupBookingStore) :=
  duplicate_booking_unique_violation.1 dupBookingStore 10 "Mario" "mario@x.it" ""
    ⟨10, "Personal", none, 0, 480, 540, 2, some DEFAULT_LOCATION⟩
    (by decide) (by decide) (by decide)

/-- A store whose only session has capacity 2 but three booking rows. -/
def overbookedStore : Store :=
  { members := [⟨1, "A", none, none⟩, ⟨2, "B", none, none⟩, ⟨3, "C", none, none⟩]
    sessions := [⟨10, "Personal", none, 0, 480, 540, 2, some DEFAULT_LOCATION⟩]
    bookings := [⟨1, 10⟩, ⟨2, 10⟩, ⟨3, 10⟩]
    packages := []
    nextMemberId := 4
    nextSessionId := 11 }

/-- C8 counterexample: with capacity 2 and three bookings the reported
`spots_left` is -1: the code does not clamp at zero, against the claim that
the reported value is never negative. -/
theorem spots_left_negative_cex :
    class_detail_spots_left overbookedStore 10 = some (-1) ∧ (-1 : Int) < 0 := by
  decide

/-- C8 (amended): `spots_left` equals capacity minus the session's booking
count as a plain integer subtraction, and is therefore reported negative
exactly when the booking count exceeds the capacity -- there is no clamp. -/
theorem spots_left_formula :
    ∀ (st : Store) (cid : Nat) (cs : ClassSession),
      findSession st.sessions cid = some cs →
      class_detail_spots_left st cid =
        some ((cs.capacity : Int) - (bookingCount st cs.id : Int)) ∧
      ((cs.capacity : Int) - (bookingCount st cs.id : Int) < 0 ↔
        cs.capacity < bookingCount st cs.id) := by
  intro st cid cs hfind
  constructor
  · simp [class_detail_spots_left, hfind]
  · omega

/-- Witness for `spots_left_formula` at the overbooked store. -/
theorem spots_left_formula_witness :
    class_detail_spots_left overbookedStore 10 =
      some (((2 : Nat) : Int) - (bookingCount overbookedStore 10 : Int)) ∧
    (((2 : Nat) : Int) - (bookingCount overbookedStore 10 : Int) < 0 ↔
      2 < bookingCount overbookedStore 10) :=
  spots_left_formula overbookedStore 10
    ⟨10, "Personal", none, 0, 480, 540, 2, some DEFAULT_LOCATION⟩ (by decide)

/-!
The slot generator `upsert_personal_slots` (src/app.py lines 128-146).
Because the slot expansion can diverge (see `zero_duration_diverges`), the
generator is fuelled as well: `none` means some day's expansion had not
terminated within the fuel bound.  The query-before-insert sees rows added
earlier in the same pass (the ORM autoflushes pending rows before a query),
which the accumulating fold models directly.
-/

/-- The `exists` lookup (src/app.py lines 134-136): does `row` match the
generated tuple `title="Personal"`, `date=d`, `start_time=a`, `end_time=b`,
`location=DEFAULT_LOCATION`? -/
def matchesSlot (row : ClassSession) (d : Nat) (a b : Int) : Bool :=
  row.title == "Personal" && row.date == d && row.start_time == a &&
    row.end_time == b && row.location == some DEFAULT_LOCATION

/-- Whether some session row matches the generated tuple. -/
def slotExists (l : List ClassSession) (d : Nat) (a b : Int) : Bool :=
  l.any (fun r => matchesSlot r d a b)

/-- How many session rows match the generated tuple. -/
def slotCount (l : List ClassSession) (d : Nat) (a b : Int) : Nat :=
  (l.filter (fun r => matchesSlot r d a b)).length

/-- The `ClassSession` the generator creates for a missing slot
(src/app.py lines 138-144): `coach` is `settings.personal_coach or None`,
capacity and coach are taken from the current settings. -/
def newSessionRow (s : Settings) (nid d : Nat) (se : Int × Int) : ClassSession :=
  { id := nid
    title := "Personal"
    coach := if s.personal_coach == "" then none else some s.personal_coach
    date := d
    start_time := se.1
    end_time := se.2
    capacity := s.personal_capacity
    location := some DEFAULT_LOCATION }

/-- One iteration of the generator's inner loop (src/app.py lines 133-145):
insert the slot's session unless a matching row exists. -/
def insertSlot (s : Settings) (d : Nat) (se : Int × Int) (st : Store) : Store :=
  if slotExists st.sessions d se.1 se.2 then st
  else
    { st with
      sessions := st.sessions ++ [newSessionRow s st.nextSessionId d se]
      nextSessionId := st.nextSessionId + 1 }

/-- The generator's inner loop over one day's slots. -/
def processSlots (s : Settings) (d : Nat) (slots : List (Int × Int)) (st : Store) : Store :=
  slots.foldl (fun acc se => insertSlot s d se acc) st

/-- One day of the generator: expand the day's slots (which may diverge,
hence `Option`) and fold the inserts. -/
def processDay (s : Settings) (fuel : Nat) (d : Nat) (st : Store) : Option Store :=
  (slot_ranges_for_personal s.personal_duration_min (d % 7) fuel).map
    (fun slots => processSlots s d slots st)

/-- The generator's outer loop over the horizon's days. -/
def processDays (s : Settings) (fuel : Nat) : List Nat → Store → Option Store
  | [], st => some st
  | d :: ds, st =>
    match processDay s fuel d st with
    | none => none
    | some st1 => processDays s fuel ds st1

/-- `daterange(today, today + weeks_ahead weeks)` (src/app.py lines 97-99,
130-132): the `7 * weeks_ahead + 1` days from today inclusive. -/
def horizonDays (s : Settings) (today : Nat) : List Nat :=
  (List.range (7 * s.weeks_ahead + 1)).map (fun n => today + n)

/-- `upsert_personal_slots()` (src/app.py lines 128-146). -/
def upsert_personal_slots (s : Settings) (today fuel : Nat) (st : Store) : Option Store :=
  processDays s fuel (horizonDays s today) st

/-- `st2` extends `st` by pure insertion: all non-session tables unchanged,
and the session table grows by appended rows whose generated tuple had no
matching row in `st`. -/
def ExtendsOnly (st st2 : Store) : Prop :=
  st2.members = st.members ∧ st2.bookings = st.bookings ∧ st2.packages = st.packages ∧
  st2.nextMemberId = st.nextMemberId ∧
  ∃ new, st2.sessions = st.sessions ++ new ∧
    ∀ r ∈ new, slotExists st.sessions r.date r.start_time r.end_time = false

theorem ExtendsOnly_refl (st : Store) : ExtendsOnly st st :=
  ⟨rfl, rfl, rfl, rfl, [], by simp, by simp⟩

theorem slotExists_append (a b : List ClassSession) (d : Nat) (x y : Int) :
    slotExists (a ++ b) d x y = (slotExists a d x y || slotExists b d x y) := by
  simp [slotExists, List.any_append]

theorem ExtendsOnly_trans {st st1 st2 : Store}
    (h1 : ExtendsOnly st st1) (h2 : ExtendsOnly st1 st2) : ExtendsOnly st st2 := by
  obtain ⟨hm1, hb1, hp1, hn1, new1, hs1, hmiss1⟩ := h1
  obtain ⟨hm2, hb2, hp2, hn2, new2, hs2, hmiss2⟩ := h2
  refine ⟨hm2.trans hm1, hb2.trans hb1, hp2.trans hp1, hn2.trans hn1,
    new1 ++ new2, by rw [hs2, hs1, List.append_assoc], ?_⟩
  intro r hr
  rcases List.mem_append.mp hr with h | h
  · exact hmiss1 r h
  · have := hmiss2 r h
    rw [hs1, slotExists_append] at this
    exact (Bool.or_eq_false_iff.mp this).1

theorem insertSlot_extends (s : Settings) (d : Nat) (se : Int × Int) (st : Store) :
    ExtendsOnly st (insertSlot s d se st) := by
  unfold insertSlot
  split
  · exact ExtendsOnly_refl st
  · rename_i hex
    have hex2 : slotExists st.sessions d se.1 se.2 = false := by
      simpa using hex
    exact ⟨rfl, rfl, rfl, rfl, [newSessionRow s st.nextSessionId d se], rfl, by
      intro r hr
      rw [List.mem_singleton] at hr
      subst hr
      exact hex2⟩

theorem insertSlot_self (s : Settings) (d : Nat) (se : Int × Int) (st : Store) :
    slotExists (insertSlot s d se st).sessions d se.1 se.2 = true := by
  unfold insertSlot
  split
  · assumption
  · simp [slotExists_append, slotExists, matchesSlot, newSessionRow]

theorem insertSlot_skip (s : Settings) (d : Nat) (se : Int × Int) (st : Store)
    (h : slotExists st.sessions d se.1 se.2 = true) : insertSlot s d se st = st := by
  unfold insertSlot
  rw [if_pos h]

theorem slotExists_mono {st st2 : Store} (h : ExtendsOnly st st2) (d : Nat) (a b : Int)
    (hex : slotExists st.sessions d a b = true) : slotExists st2.sessions d a b = true := by
  obtain ⟨-, -, -, -, new, hs, -⟩ := h
  rw [hs, slotExists_append, hex]
  rfl

theorem processSlots_extends (s : Settings) (d : Nat) (slots : List (Int × Int)) :
    ∀ st : Store, ExtendsOnly st (processSlots s d slots st) := by
  induction slots with
  | nil => intro st; exact ExtendsOnly_refl st
  | cons se rest ih =>
    intro st
    exact ExtendsOnly_trans (insertSlot_extends s d se st) (ih (insertSlot s d se st))

theorem processSlots_present (s : Settings) (d : Nat) (slots : List (Int × Int)) :
    ∀ st : Store, ∀ se ∈ slots,
      slotExists (processSlots s d slots st).sessions d se.1 se.2 = true := by
  induction slots with
  | nil => intro st se h; cases h
  | cons a rest ih =>
    intro st se hse
    rcases List.mem_cons.mp hse with h | h
    · subst h
      exact slotExists_mono (processSlots_extends s d rest (insertSlot s d se st))
        d se.1 se.2 (insertSlot_self s d se st)
    · exact ih (insertSlot s d a st) se h

theorem processSlots_skip (s : Settings) (d : Nat) (slots : List (Int × Int)) :
    ∀ st : Store, (∀ se ∈ slots, slotExists st.sessions d se.1 se.2 = true) →
      processSlots s d slots st = st := by
  induction slots with
  | nil => intro st _; rfl
  | cons a rest ih =>
    intro st h
    have ha : insertSlot s d a st = st := insertSlot_skip s d a st (h a (by simp))
    show processSlots s d rest (insertSlot s d a st) = st
    rw [ha]
    exact ih st (fun se hse => h se (by simp [hse]))

theorem processDay_extends (s : Settings) (fuel d : Nat) (st st2 : Store)
    (h : processDay s fuel d st = some st2) : ExtendsOnly st st2 := by
  unfold processDay at h
  cases hsr : slot_ranges_for_personal s.personal_duration_min (d % 7) fuel with
  | none => rw [hsr] at h; cases h
  | some slots =>
    rw [hsr] at h
    simp only [Option.map_some'] at h
    rw [← Option.some_inj.mp h]
    exact processSlots_extends s d slots st

theorem processDay_present (s : Settings) (fuel d : Nat) (st st2 : Store)
    (h : processDay s fuel d st = some st2) (sl : List (Int × Int))
    (hsl : slot_ranges_for_personal s.personal_duration_min (d % 7) fuel = some sl) :
    ∀ se ∈ sl, slotExists st2.sessions d se.1 se.2 = true := by
  unfold processDay at h
  rw [hsl] at h
  simp only [Option.map_some'] at h
  rw [← Option.some_inj.mp h]
  exact processSlots_present s d sl st

theorem processDay_skip (s : Settings) (fuel d : Nat) (st : Store) (sl : List (Int × Int))
    (hsl : slot_ranges_for_personal s.personal_duration_min (d % 7) fuel = some sl)
    (h : ∀ se ∈ sl, slotExists st.sessions d se.1 se.2 = true) :
    processDay s fuel d st = some st := by
  unfold processDay
  rw [hsl]
  simp only [Option.map_some', Option.some_inj]
  exact processSlots_skip s d sl st h

theorem processDay_conv (s : Settings) (fuel d : Nat) (st st2 : Store)
    (h : processDay s fuel d st = some st2) :
    ∃ sl, slot_ranges_for_personal s.personal_duration_min (d % 7) fuel = some sl := by
  unfold processDay at h
  cases hsr : slot_ranges_for_personal s.personal_duration_min (d % 7) fuel with
  | none => rw [hsr] at h; cases h
  | some slots => exact ⟨slots, rfl⟩

theorem processDays_extends (s : Settings) (fuel : Nat) (ds : List Nat) :
    ∀ st st2 : Store, processDays s fuel ds st = some st2 → ExtendsOnly st st2 := by
  induction ds with
  | nil =>
    intro st st2 h
    rw [← Option.some_inj.mp h]
    exact ExtendsOnly_refl st
  | cons d rest ih =>
    intro st st2 h
    unfold processDays at h
    cases hd : processDay s fuel d st with
    | none => rw [hd] at h; cases h
    | some st1 =>
      rw [hd] at h
      exact ExtendsOnly_trans (processDay_extends s fuel d st st1 hd) (ih st1 st2 h)

theorem processDays_present (s : Settings) (fuel : Nat) (ds : List Nat) :
    ∀ st st2 : Store, processDays s fuel ds st = some st2 →
      ∀ d ∈ ds, ∀ sl,
        slot_ranges_for_personal s.personal_duration_min (d % 7) fuel = some sl →
        ∀ se ∈ sl, slotExists st2.sessions d se.1 se.2 = true := by
  induction ds with
  | nil => intro st st2 _ d hd; cases hd
  | cons d0 rest ih =>
    intro st st2 h d hd sl hsl se hse
    unfold processDays at h
    cases hd0 : processDay s fuel d0 st with
    | none => rw [hd0] at h; cases h
    | some st1 =>
      rw [hd0] at h
      rcases List.mem_cons.mp hd with heq | hmem
      · subst heq
        exact slotExists_mono (processDays_extends s fuel rest st1 st2 h) d se.1 se.2
          (processDay_present s fuel d st st1 hd0 sl hsl se hse)
      · exact ih st1 st2 h d hmem sl hsl se hse

theorem processDays_idem (s : Settings) (fuel : Nat) (ds : List Nat) :
    ∀ st st2 : Store, processDays s fuel ds st = some st2 →
      processDays s fuel ds st2 = some st2 := by
  induction ds with
  | nil => intro st st2 _; rfl
  | cons d rest ih =>
    intro st st2 h
    unfold processDays at h ⊢
    cases hd : processDay s fuel d st with
    | none => rw [hd] at h; cases h
    | some st1 =>
      rw [hd] at h
      obtain ⟨sl, hsl⟩ := processDay_conv s fuel d st st1 hd
      have hpres : ∀ se ∈ sl, slotExists st2.sessions d se.1 se.2 = true := by
        intro se hse
        exact slotExists_mono (processDays_extends s fuel rest st1 st2 h) d se.1 se.2
          (processDay_present s fuel d st st1 hd sl hsl se hse)
      rw [processDay_skip s fuel d st2 sl hsl hpres]
      exact ih st1 st2 h

theorem slotExists_iff_count (l : List ClassSession) (d : Nat) (a b : Int) :
    slotExists l d a b = true ↔ 1 ≤ slotCount l d a b := by
  rw [slotCount, ← List.countP_eq_length_filter]
  constructor
  · intro h
    obtain ⟨r, hr, hp⟩ := List.any_eq_true.mp h
    exact List.countP_pos_iff.mpr ⟨r, hr, hp⟩
  · intro h
    obtain ⟨r, hr, hp⟩ := List.countP_pos_iff.mp h
    exact List.any_eq_true.mpr ⟨r, hr, hp⟩

theorem slotCount_zero {l : List ClassSession} {d : Nat} {a b : Int}
    (h : slotExists l d a b = false) : slotCount l d a b = 0 := by
  by_contra hne
  have h2 : slotExists l d a b = true := (slotExists_iff_count l d a b).mpr (by omega)
  rw [h] at h2
  cases h2

theorem slotCount_append (l1 l2 : List ClassSession) (d : Nat) (a b : Int) :
    slotCount (l1 ++ l2) d a b = slotCount l1 d a b + slotCount l2 d a b := by
  simp [slotCount, List.filter_append]

theorem slotCount_newRow_self (s : Settings) (nid d : Nat) (se : Int × Int) :
    slotCount [newSessionRow s nid d se] d se.1 se.2 = 1 := by
  simp [slotCount, List.filter, matchesSlot, newSessionRow]

theorem slotCount_newRow_other (s : Settings) (nid d : Nat) (se : Int × Int)
    (d0 : Nat) (a0 b0 : Int) (hm : ¬ (d = d0 ∧ se.1 = a0 ∧ se.2 = b0)) :
    slotCount [newSessionRow s nid d se] d0 a0 b0 = 0 := by
  simp only [slotCount, List.filter, matchesSlot, newSessionRow]
  split
  · rename_i hcond
    simp only [Bool.and_eq_true, beq_iff_eq] at hcond
    exact absurd ⟨hcond.1.1.1.2, hcond.1.1.2, hcond.1.2⟩ hm
  · rfl

theorem insertSlot_count (s : Settings) (d : Nat) (se : Int × Int) (st : Store)
    (d0 : Nat) (a0 b0 : Int) :
    slotCount st.sessions d0 a0 b0 ≤ slotCount (insertSlot s d se st).sessions d0 a0 b0 ∧
    slotCount (insertSlot s d se st).sessions d0 a0 b0 ≤
      max (slotCount st.sessions d0 a0 b0) 1 := by
  unfold insertSlot
  split
  · exact ⟨le_refl _, le_max_left _ _⟩
  · rename_i hex
    have hex2 : slotExists st.sessions d se.1 se.2 = false := by simpa using hex
    show slotCount st.sessions d0 a0 b0 ≤
        slotCount (st.sessions ++ [newSessionRow s st.nextSessionId d se]) d0 a0 b0 ∧
      slotCount (st.sessions ++ [newSessionRow s st.nextSessionId d se]) d0 a0 b0 ≤
        max (slotCount st.sessions d0 a0 b0) 1
    rw [slotCount_append]
    by_cases hm : (d = d0 ∧ se.1 = a0 ∧ se.2 = b0)
    · obtain ⟨hd, ha, hb⟩ := hm
      subst hd; subst ha; subst hb
      have hz : slotCount st.sessions d se.1 se.2 = 0 := slotCount_zero hex2
      rw [hz, slotCount_newRow_self]
      omega
    · rw [slotCount_newRow_other s st.nextSessionId d se d0 a0 b0 hm]
      omega

theorem processSlots_count (s : Settings) (d : Nat) (slots : List (Int × Int)) :
    ∀ st : Store, ∀ (d0 : Nat) (a0 b0 : Int),
      slotCount st.sessions d0 a0 b0 ≤ slotCount (processSlots s d slots st).sessions d0 a0 b0 ∧
      slotCount (processSlots s d slots st).sessions d0 a0 b0 ≤
        max (slotCount st.sessions d0 a0 b0) 1 := by
  induction slots with
  | nil => intro st d0 a0 b0; exact ⟨le_refl _, le_max_left _ _⟩
  | cons se rest ih =>
    intro st d0 a0 b0
    have hstep : processSlots s d (se :: rest) st
        = processSlots s d rest (insertSlot s d se st) := rfl
    rw [hstep]
    have h1 := insertSlot_count s d se st d0 a0 b0
    have h2 := ih (insertSlot s d se st) d0 a0 b0
    exact ⟨by omega, by omega⟩

theorem processDay_count (s : Settings) (fuel d : Nat) (st st2 : Store)
    (h : processDay s fuel d st = some st2) (d0 : Nat) (a0 b0 : Int) :
    slotCount st.sessions d0 a0 b0 ≤ slotCount st2.sessions d0 a0 b0 ∧
    slotCount st2.sessions d0 a0 b0 ≤ max (slotCount st.sessions d0 a0 b0) 1 := by
  unfold processDay at h
  cases hsr : slot_ranges_for_personal s.personal_duration_min (d % 7) fuel with
  | none => rw [hsr] at h; cases h
  | some slots =>
    rw [hsr] at h
    simp only [Option.map_some'] at h
    rw [← Option.some_inj.mp h]
    exact processSlots_count s d slots st d0 a0 b0

theorem processDays_count (s : Settings) (fuel : Nat) (ds : List Nat) :
    ∀ st st2 : Store, processDays s fuel ds st = some st2 →
      ∀ (d0 : Nat) (a0 b0 : Int),
        slotCount st.sessions d0 a0 b0 ≤ slotCount st2.sessions d0 a0 b0 ∧
        slotCount st2.sessions d0 a0 b0 ≤ max (slotCount st.sessions d0 a0 b0) 1 := by
  induction ds with
  | nil =>
    intro st st2 h d0 a0 b0
    rw [← Option.some_inj.mp h]
    exact ⟨le_refl _, le_max_left _ _⟩
  | cons d rest ih =>
    intro st st2 h d0 a0 b0
    unfold processDays at h
    cases hd : processDay s fuel d st with
    | none => rw [hd] at h; cases h
    | some st1 =>
      rw [hd] at h
      have h1 := processDay_count s fuel d st st1 hd d0 a0 b0
      have h2 := ih st1 st2 h d0 a0 b0
      exact ⟨by omega, by omega⟩

/-- Settings used in the concrete generator instances: zero-week horizon,
capacity 2, 240-minute slots, no coach. -/
def genSettings : Settings := ⟨0, 2, 240, ""⟩

/-- A store that already contains TWO identical generated-looking rows for
the Monday tuple 08:00-12:00 (no storage constraint prevents this). -/
def dupSlotStore : Store :=
  { members := []
    sessions := [⟨100, "Personal", none, 0, 480, 720, 2, some DEFAULT_LOCATION⟩,
                 ⟨101, "Personal", none, 0, 480, 720, 2, some DEFAULT_LOCATION⟩]
    bookings := []
    packages := []
    nextMemberId := 1
    nextSessionId := 102 }

/-- C6 counterexample: the claim's "exactly one session row exists for every
generated tuple" fails for a store state that already holds two duplicate
rows for a tuple in the horizon: both invocations leave the duplicates in
place, so after the second invocation the tuple still has two rows (the
row-count part does hold: the second pass changes nothing). -/
theorem upsert_duplicate_rows_cex :
    ((upsert_personal_slots genSettings 0 20 dupSlotStore).bind
        (upsert_personal_slots genSettings 0 20)).map
      (fun st2 => slotCount st2.sessions 0 480 720) = some 2 ∧
    ((slot_ranges_for_personal genSettings.personal_duration_min 0 20).getD []).contains
      (480, 720) = true ∧
    (0 : Nat) ∈ horizonDays genSettings 0 := by
  refine ⟨by decide, by decide, by decide⟩

/-- C6 (amended): invoking the generator a second time over the same horizon
with unchanged settings returns the store of the first invocation unchanged
(so the row count is unchanged and no duplicates are created); after the
first invocation at least one session row exists for every generated tuple
of the horizon, and exactly one provided the starting store held at most
one row matching that tuple (a store already holding duplicate rows keeps
them). -/
theorem upsert_idempotent :
    (∀ (s : Settings) (today fuel : Nat) (st st1 st2 : Store),
        upsert_personal_slots s today fuel st = some st1 →
        upsert_personal_slots s today fuel st1 = some st2 →
        st2 = st1) ∧
    (∀ (s : Settings) (today fuel : Nat) (st st1 : Store) (d : Nat)
        (sl : List (Int × Int)) (se : Int × Int),
        upsert_personal_slots s today fuel st = some st1 →
        d ∈ horizonDays s today →
        slot_ranges_for_personal s.personal_duration_min (d % 7) fuel = some sl →
        se ∈ sl →
        1 ≤ slotCount st1.sessions d se.1 se.2) ∧
    (∀ (s : Settings) (today fuel : Nat) (st st1 : Store) (d : Nat) (a b : Int),
        upsert_personal_slots s today fuel st = some st1 →
        slotCount st.sessions d a b ≤ 1 →
        slotCount st1.sessions d a b ≤ 1) := by
  refine ⟨?_, ?_, ?_⟩
  · intro s today fuel st st1 st2 h1 h2
    have hidem : upsert_personal_slots s today fuel st1 = some st1 :=
      processDays_idem s fuel (horizonDays s today) st st1 h1
    rw [hidem] at h2
    exact (Option.some_inj.mp h2).symm
  · intro s today fuel st st1 d sl se h1 hd hsl hse
    exact (slotExists_iff_count st1.sessions d se.1 se.2).mp
      (processDays_present s fuel (horizonDays s today) st st1 h1 d hd sl hsl se hse)
  · intro s today fuel st st1 d a b h1 hle
    have := processDays_count s fuel (horizonDays s today) st st1 h1 d a b
    omega

/-- The empty store. -/
def emptyStore : Store := ⟨[], [], [], [], 1, 1⟩

/-- The store produced by one generator pass over `emptyStore` with
`genSettings` starting on a Monday (day 0). -/
def genStore1 : Store :=
  (upsert_personal_slots genSettings 0 20 emptyStore).getD emptyStore

/-- Witness for `upsert_idempotent` at a concrete Monday horizon. -/
theorem upsert_idempotent_witness :
    upsert_personal_slots genSettings 0 20 emptyStore = some genStore1 ∧
    (upsert_personal_slots genSettings 0 20 genStore1).getD emptyStore = genStore1 ∧
    1 ≤ slotCount genStore1.sessions 0 480 720 :=
  ⟨by decide,
   upsert_idempotent.1 genSettings 0 20 emptyStore genStore1
     ((upsert_personal_slots genSettings 0 20 genStore1).getD emptyStore)
     (by decide) (by decide),
   upsert_idempotent.2.1 genSettings 0 20 emptyStore genStore1 0
     [(480, 720), (720, 960), (960, 1200)] (480, 720)
     (by decide) (by decide) (by decide) (by decide)⟩

/-- C7: a generator pass only inserts: every pre-existing `ClassSession` row
survives unchanged in place (the session list is extended by appended rows
only), every inserted row's generated tuple had no matching row in the
starting store, and members, bookings and packages are untouched -- in
particular rows generated under earlier settings are never mutated or
deleted when settings have since changed. -/
theorem upsert_frame :
    ∀ (s : Settings) (today fuel : Nat) (st st2 : Store),
      upsert_personal_slots s today fuel st = some st2 → ExtendsOnly st st2 :=
  fun s today fuel st st2 h => processDays_extends s fuel (horizonDays s today) st st2 h

/-- Witness for `upsert_frame`: a concrete pass over a store that already
holds a session generated under different settings. -/
theorem upsert_frame_witness :
    ExtendsOnly dupSlotStore
      ((upsert_personal_slots genSettings 0 20 dupSlotStore).getD dupSlotStore) :=
  upsert_frame genSettings 0 20 dupSlotStore
    ((upsert_personal_slots genSettings 0 20 dupSlotStore).getD dupSlotStore) (by decide)

/-!
Magic-link login (src/app.py lines 81-88 and 285-297).  Timestamps are
integers; the member session cookie is an `Option Nat`.
-/

/-- A `MagicToken` row (src/app.py lines 81-88); `id` and `created_at` are
never consulted by the login route and are omitted. -/
structure MagicToken where
  member_id : Nat
  token : String
  expires_at : Int
  used : Bool
  deriving Repr, DecidableEq

/-- The state the login route touches: the token table and the visitor's
member session. -/
structure AuthState where
  tokens : List MagicToken
  session_member : Option Nat
  deriving Repr, DecidableEq

/-- Outcomes of `magic_login_token`: the four flash/redirect paths. -/
inductive LoginOutcome where
  | invalid
  | alreadyUsed
  | expired
  | success
  deriving Repr, DecidableEq

/-- `MagicToken.query.filter_by(token=token).first()` (src/app.py line 287). -/
def findToken (l : List MagicToken) (t : String) : Option MagicToken :=
  l.find? (fun r => r.token == t)

/-- Setting `mt.used = True` on the row `first()` returned: mark the first
matching row used, leaving the rest untouched. -/
def markUsed : List MagicToken → String → List MagicToken
  | [], _ => []
  | r :: rs, t => if r.token == t then { r with used := true } :: rs else r :: markUsed rs t

/-- `magic_login_token(token)` (src/app.py lines 285-297) at time `now`:
unknown, used and expired tokens are rejected with the matching flash and no
state change; otherwise the member session is established and the token is
marked used, committed together. -/
def magic_login_token (st : AuthState) (tok : String) (now : Int) : AuthState × LoginOutcome :=
  match findToken st.tokens tok with
  | none => (st, .invalid)
  | some mt =>
    if mt.used then (st, .alreadyUsed)
    else if now > mt.expires_at then (st, .expired)
    else ({ tokens := markUsed st.tokens tok, session_member := some mt.member_id }, .success)

/-- Run a sequence of login attempts, counting how many attempts with the
token `t` succeed. -/
def runCount (t : String) : AuthState → List (String × Int) → Nat
  | _, [] => 0
  | st, (tok, now) :: rest =>
    let r := magic_login_token st tok now
    (if tok = t ∧ r.2 = .success then 1 else 0) + runCount t r.1 rest

/-- A token is dead when it has no row or its row is already used. -/
def tokenDead (st : AuthState) (t : String) : Bool :=
  match findToken st.tokens t with
  | none => true
  | some r => r.used

theorem findToken_markUsed_self (l : List MagicToken) (t : String) :
    findToken (markUsed l t) t = (findToken l t).map (fun r => { r with used := true }) := by
  induction l with
  | nil => rfl
  | cons r rs ih =>
    cases h : (r.token == t) with
    | true => simp [markUsed, findToken, List.find?, h]
    | false => simpa [markUsed, findToken, List.find?, h] using ih

theorem findToken_markUsed_other (l : List MagicToken) (t t2 : String) (hne : t2 ≠ t) :
    findToken (markUsed l t) t2 = findToken l t2 := by
  induction l with
  | nil => rfl
  | cons r rs ih =>
    cases h : (r.token == t) with
    | true =>
      have hrt : r.token = t := by simpa using h
      have hr2 : (r.token == t2) = false := by
        simp [hrt]
        exact fun hc => hne hc.symm
      simp [markUsed, findToken, List.find?, h, hr2]
    | false =>
      cases h2 : (r.token == t2) with
      | true => simp [markUsed, findToken, List.find?, h, h2]
      | false => simpa [markUsed, findToken, List.find?, h, h2] using ih

theorem runCount_cons (t tok : String) (now : Int) (st : AuthState)
    (rest : List (String × Int)) :
    runCount t st ((tok, now) :: rest) =
      (if tok = t ∧ (magic_login_token st tok now).2 = .success then 1 else 0) +
        runCount t (magic_login_token st tok now).1 rest := rfl

theorem tokenDead_login (st : AuthState) (t tok : String) (now : Int)
    (h : tokenDead st t = true) : tokenDead (magic_login_token st tok now).1 t = true := by
  unfold magic_login_token
  cases hf : findToken st.tokens tok with
  | none => exact h
  | some mt =>
    by_cases hu : mt.used
    · simp only [if_pos hu]; exact h
    · by_cases he : now > mt.expires_at
      · simp only [if_neg hu, if_pos he]; exact h
      · simp only [if_neg hu, if_neg he]
        by_cases ht : t = tok
        · subst ht
          have h2 : mt.used = true := by
            unfold tokenDead at h
            simp only [hf] at h
            exact h
          exact absurd h2 hu
        · unfold tokenDead at h ⊢
          simp only [findToken_markUsed_other st.tokens tok t ht]
          exact h

theorem login_success_dead (st : AuthState) (t : String) (now : Int)
    (h : (magic_login_token st t now).2 = .success) :
    tokenDead (magic_login_token st t now).1 t = true := by
  unfold magic_login_token at h ⊢
  cases hf : findToken st.tokens t with
  | none => simp only [hf] at h; cases h
  | some mt =>
    simp only [hf] at h ⊢
    by_cases hu : mt.used = true
    · rw [if_pos hu] at h; cases h
    · by_cases he : now > mt.expires_at
      · rw [if_neg hu, if_pos he] at h; cases h
      · simp only [if_neg hu, if_neg he]
        unfold tokenDead
        simp only [findToken_markUsed_self st.tokens t, hf]
        rfl

theorem dead_no_success (st : AuthState) (t : String) (now : Int)
    (h : tokenDead st t = true) : (magic_login_token st t now).2 ≠ .success := by
  unfold magic_login_token
  cases hf : findToken st.tokens t with
  | none => intro hc; cases hc
  | some mt =>
    unfold tokenDead at h
    simp only [hf] at h
    simp [h]

theorem runCount_le_one (t : String) :
    ∀ (attempts : List (String × Int)) (st : AuthState),
      (tokenDead st t = true → runCount t st attempts = 0) ∧ runCount t st attempts ≤ 1 := by
  intro attempts
  induction attempts with
  | nil =>
    intro st
    have h0 : runCount t st [] = 0 := rfl
    exact ⟨fun _ => h0, by omega⟩
  | cons a rest ih =>
    intro st
    obtain ⟨tok, now⟩ := a
    rw [runCount_cons]
    constructor
    · intro hdead
      have hnext : tokenDead (magic_login_token st tok now).1 t = true :=
        tokenDead_login st t tok now hdead
      have hrest : runCount t (magic_login_token st tok now).1 rest = 0 :=
        (ih (magic_login_token st tok now).1).1 hnext
      rw [hrest]
      by_cases hc : tok = t ∧ (magic_login_token st tok now).2 = .success
      · exfalso
        obtain ⟨h1, h2⟩ := hc
        subst h1
        exact dead_no_success st tok now hdead h2
      · rw [if_neg hc]
    · by_cases hc : tok = t ∧ (magic_login_token st tok now).2 = .success
      · rw [if_pos hc]
        obtain ⟨h1, h2⟩ := hc
        subst h1
        have hdead : tokenDead (magic_login_token st tok now).1 tok = true :=
          login_success_dead st tok now h2
        have hrest : runCount tok (magic_login_token st tok now).1 rest = 0 :=
          (ih (magic_login_token st tok now).1).1 hdead
        omega
      · rw [if_neg hc]
        have := (ih (magic_login_token st tok now).1).2
        omega

/-- C9: a magic token never grants more than one login: over any sequence of
attempts the number of successes with a given token is at most one; a
successful login never happens strictly after the token's expiry; a rejected
attempt (unknown, used or expired token) leaves the state unchanged, so no
member session is established; and the unknown/used/expired cases reject
with their respective outcomes. -/
theorem magic_token_once :
    (∀ (t : String) (st : AuthState) (attempts : List (String × Int)),
        runCount t st attempts ≤ 1) ∧
    (∀ (st : AuthState) (tok : String) (now : Int) (mt : MagicToken),
        findToken st.tokens tok = some mt →
        (magic_login_token st tok now).2 = .success →
        now ≤ mt.expires_at) ∧
    (∀ (st : AuthState) (tok : String) (now : Int),
        (magic_login_token st tok now).2 ≠ .success →
        (magic_login_token st tok now).1 = st) ∧
    (∀ (st : AuthState) (tok : String) (now : Int),
        findToken st.tokens tok = none →
        magic_login_token st tok now = (st, .invalid)) ∧
    (∀ (st : AuthState) (tok : String) (now : Int) (mt : MagicToken),
        findToken st.tokens tok = some mt → mt.used = true →
        magic_login_token st tok now = (st, .alreadyUsed)) ∧
    (∀ (st : AuthState) (tok : String) (now : Int) (mt : MagicToken),
        findToken st.tokens tok = some mt → mt.used = false → mt.expires_at < now →
        magic_login_token st tok now = (st, .expired)) := by
  refine ⟨?_, ?_, ?_, ?_, ?_, ?_⟩
  · intro t st attempts
    exact (runCount_le_one t attempts st).2
  · intro st tok now mt hf h
    unfold magic_login_token at h
    simp only [hf] at h
    by_cases hu : mt.used = true
    · rw [if_pos hu] at h; cases h
    · by_cases he : now > mt.expires_at
      · rw [if_neg hu, if_pos he] at h; cases h
      · omega
  · intro st tok now h
    unfold magic_login_token at h ⊢
    cases hf : findToken st.tokens tok with
    | none => simp only [hf]
    | some mt =>
      simp only [hf] at h ⊢
      by_cases hu : mt.used = true
      · rw [if_pos hu]
      · by_cases he : now > mt.expires_at
        · rw [if_neg hu, if_pos he]
        · rw [if_neg hu, if_neg he] at h
          exact absurd rfl h
  · intro st tok now hf
    unfold magic_login_token
    simp only [hf]
  · intro st tok now mt hf hu
    unfold magic_login_token
    simp only [hf]
    rw [if_pos hu]
  · intro st tok now mt hf hu he
    unfold magic_login_token
    simp only [hf]
    rw [if_neg (by simp [hu]), if_pos he]

/-- A one-token auth state for the witness. -/
def authW : AuthState := ⟨[⟨7, "tok1", 100, false⟩], none⟩

/-- A one-token auth state whose token is already used. -/
def authUsedW : AuthState := ⟨[⟨7, "tok1", 100, true⟩], none⟩

/-- Witness for `magic_token_once`: a double attempt with the same token
succeeds at most once, a concrete success is within the expiry, and a used
token is rejected unchanged. -/
theorem magic_token_once_witness :
    runCount "tok1" authW [("tok1", 50), ("tok1", 60)] ≤ 1 ∧
    (50 : Int) ≤ 100 ∧
    magic_login_token authUsedW "tok1" 50 = (authUsedW, .alreadyUsed) :=
  ⟨magic_token_once.1 "tok1" authW [("tok1", 50), ("tok1", 60)],
   magic_token_once.2.1 authW "tok1" 50 ⟨7, "tok1", 100, false⟩ (by decide) (by decide),
   magic_token_once.2.2.2.2.1 authUsedW "tok1" 50 ⟨7, "tok1", 100, true⟩
     (by decide) (by decide)⟩

theorem latestPkg_mem : ∀ (l : List Package) (p : Package), latestPkg l = some p → p ∈ l := by
  intro l
  induction l with
  | nil => intro p h; cases h
  | cons x xs ih =>
    intro p h
    unfold latestPkg at h
    cases hlx : latestPkg xs with
    | none =>
      simp only [hlx] at h
      rw [← Option.some_inj.mp h]
      exact List.mem_cons_self x xs
    | some q =>
      simp only [hlx] at h
      by_cases hc : q.activated_at > x.activated_at
      · rw [if_pos hc] at h
        rw [← Option.some_inj.mp h]
        exact List.mem_cons_of_mem x (ih q hlx)
      · rw [if_neg hc] at h
        rw [← Option.some_inj.mp h]
        exact List.mem_cons_self x xs

theorem latestPkg_strict_max : ∀ (l : List Package) (p : Package),
    p ∈ l → (∀ q ∈ l, q ≠ p → q.activated_at < p.activated_at) →
    latestPkg l = some p := by
  intro l
  induction l with
  | nil => intro p hmem _; cases hmem
  | cons x xs ih =>
    intro p hmem hmax
    unfold latestPkg
    by_cases hxp : x = p
    · subst hxp
      cases hlx : latestPkg xs with
      | none => rfl
      | some q =>
        have hq : q ∈ xs := latestPkg_mem xs q hlx
        by_cases hqp : q = x
        · subst hqp
          show (if q.activated_at > q.activated_at then some q else some q) = some q
          rw [if_neg (lt_irrefl _)]
        · have hlt := hmax q (List.mem_cons_of_mem _ hq) hqp
          show (if q.activated_at > x.activated_at then some q else some x) = some x
          rw [if_neg (not_lt.mpr (le_of_lt hlt))]
    · have hpm : p ∈ xs := by
        rcases List.mem_cons.mp hmem with h | h
        · exact absurd h.symm hxp
        · exact h
      have hxs : latestPkg xs = some p :=
        ih p hpm (fun q hq hqp => hmax q (List.mem_cons_of_mem _ hq) hqp)
      simp only [hxs]
      have hxlt : x.activated_at < p.activated_at :=
        hmax x (List.mem_cons_self _ _) hxp
      rw [if_pos hxlt]

/-- C10: the credit-balance read picks the member's package with the
strictly latest `activated_at` and never consults `expires_at`: when that
package is already expired (`expires_at < now`), the reported balance is
still that package's `remaining` -- not zero and not the balance of an
earlier still-valid package. -/
theorem remaining_ignores_expiry :
    ∀ (pkgs : List Package) (mid : Nat) (p : Package) (e now : Int),
      p ∈ pkgs → p.member_id = mid →
      (∀ q ∈ pkgs, q.member_id = mid → q ≠ p → q.activated_at < p.activated_at) →
      p.expires_at = some e → e < now →
      member_remaining_entries pkgs mid = p.remaining := by
  intro pkgs mid p e now hmem hmid hmax hexp hlt
  have hpf : p ∈ pkgs.filter (fun q => q.member_id == mid) := by
    rw [List.mem_filter]
    exact ⟨hmem, by simp [hmid]⟩
  have hlp : latestPkg (pkgs.filter (fun q => q.member_id == mid)) = some p := by
    apply latestPkg_strict_max _ p hpf
    intro q hq hqp
    have hq2 := List.mem_filter.mp hq
    exact hmax q hq2.1 (by simpa using hq2.2) hqp
  simp only [member_remaining_entries, hlp]

/-- Packages of member 1: an early never-expiring 3-credit package and a
later 7-credit package that expired at time 50. -/
def pkgsW : List Package := [⟨1, 10, 3, 10, none⟩, ⟨1, 10, 7, 100, some 50⟩]

/-- Witness for `remaining_ignores_expiry`: at time 60 the later package is
expired, yet the balance read reports its 7 remaining credits. -/
theorem remaining_ignores_expiry_witness :
    member_remaining_entries pkgsW 1 = 7 :=
  remaining_ignores_expiry pkgsW 1 ⟨1, 10, 7, 100, some 50⟩ 50 60
    (by decide) (by decide) (by decide) (by decide) (by decide)
